import Mathlib

/-!
Shallow embedding of the toy HTTP server (`src/main.rs`): the request parser
`parse_request` and the response serializer `HTTPResponse.serialize`.
Strings are modelled as `List Char` (Rust `&str` / `String` contents), byte
buffers as `List Nat` with every element a byte value.  The `HashMap` of the
source is modelled as an association list whose `insert` overwrites the
existing binding of a key, which matches the observable map semantics
(lookup, overwrite on duplicate insert).
-/

namespace ToyHttp

/-- Rust `u8::is_ascii_whitespace` / `char` ASCII whitespace, the class used
by `split_ascii_whitespace`: space, tab, newline, form feed, carriage return. -/
def isAsciiWhitespace (c : Char) : Bool :=
  c.toNat = 32 || c.toNat = 9 || c.toNat = 10 || c.toNat = 12 || c.toNat = 13

/-- Rust `char::is_whitespace` (the Unicode White_Space property), the class
used by `str::trim`. -/
def isUnicodeWhitespace (c : Char) : Bool :=
  (9 ≤ c.toNat && c.toNat ≤ 13) || c.toNat = 32 || c.toNat = 133 ||
  c.toNat = 160 || c.toNat = 5760 || (8192 ≤ c.toNat && c.toNat ≤ 8202) ||
  c.toNat = 8232 || c.toNat = 8233 || c.toNat = 8239 || c.toNat = 8287 ||
  c.toNat = 12288

/-- Strip one trailing carriage return, as `str::lines` does to a line that
was terminated by a line feed. -/
def stripCR : List Char → List Char
  | [] => []
  | [c] => if c = '\r' then [] else [c]
  | c :: rest => c :: stripCR rest

/-- Rust `str::lines`: split at each `\n`, stripping a `\r` that immediately
precedes the `\n`; a final segment with no terminating `\n` is yielded as is
(no `\r` stripping), and a string ending in `\n` yields no trailing empty
line. -/
def rustLines : List Char → List (List Char)
  | [] => []
  | '\r' :: '\n' :: cs => [] :: rustLines cs
  | '\n' :: cs => [] :: rustLines cs
  | c :: cs =>
    match rustLines cs with
    | [] => [[c]]
    | l :: ls => (c :: l) :: ls

theorem length_dropWhile_le {α : Type} (p : α → Bool) (l : List α) :
    (l.dropWhile p).length ≤ l.length := by
  induction l with
  | nil => simp [List.dropWhile]
  | cons c cs ih =>
    rw [List.dropWhile_cons]
    split
    · exact Nat.le_succ_of_le ih
    · exact Nat.le_refl _

/-- Rust `str::split_ascii_whitespace`: the maximal runs of
non-ASCII-whitespace characters, in order (skip leading whitespace, take the
next run, continue after it). -/
def splitAsciiWhitespace : List Char → List (List Char)
  | [] => []
  | c :: cs =>
    if h : isAsciiWhitespace c then splitAsciiWhitespace cs
    else
      ((c :: cs).takeWhile fun x => !isAsciiWhitespace x) ::
        splitAsciiWhitespace ((c :: cs).dropWhile fun x => !isAsciiWhitespace x)
termination_by l => l.length
decreasing_by
  · simp only [List.length_cons]
    omega
  · rw [List.dropWhile_cons]
    simp only [h, Bool.not_false, if_true, List.length_cons]
    exact Nat.lt_succ_of_le (length_dropWhile_le _ cs)

/-- Rust `str::split_once(' ')`: the text before the first space paired with
the text after it, or `none` when the string has no space. -/
def splitOnceSpace : List Char → Option (List Char × List Char)
  | [] => none
  | c :: cs =>
    if c = ' ' then some ([], cs)
    else (splitOnceSpace cs).map fun p => (c :: p.1, p.2)

/-- Rust `str::trim`: remove leading and trailing Unicode whitespace. -/
def rustTrim (l : List Char) : List Char :=
  ((l.dropWhile isUnicodeWhitespace).reverse.dropWhile isUnicodeWhitespace).reverse

/-- The source's header-loop termination test `line.trim().len() == 0`. -/
def isBlankLine (l : List Char) : Bool := (rustTrim l).length = 0

/-- Association-list model of `HashMap<String, String>`: lookup by exact key
equality (`HashMap::get` semantics). -/
def hmGet : List (List Char × List Char) → List Char → Option (List Char)
  | [], _ => none
  | (k, v) :: rest, key => if k = key then some v else hmGet rest key

/-- Association-list model of `HashMap::insert`: overwrite the binding of an
existing key, otherwise append a new binding. -/
def hmInsert : List (List Char × List Char) → List Char → List Char →
    List (List Char × List Char)
  | [], key, val => [(key, val)]
  | (k, v) :: rest, key, val =>
    if k = key then (key, val) :: rest else (k, v) :: hmInsert rest key val

/-- Continuation byte test for UTF-8 decoding: `0x80 ≤ b < 0xC0`. -/
def isCont (b : Nat) : Bool := 128 ≤ b && b < 192

/-- Decode one UTF-8 scalar value from lead byte `b` and remaining bytes
`bs`, returning the character and the bytes left over, or `none` when the
sequence is ill-formed.  The acceptance conditions are exactly those of
Rust's `std::str::from_utf8`: continuation bytes checked, overlong
encodings, surrogates and out-of-range values rejected. -/
def decodeElem (b : Nat) (bs : List Nat) : Option (Char × Nat) :=
  if b < 128 then some (Char.ofNat b, 0)
  else if b < 194 then none
  else if b < 224 then
    match bs with
    | b1 :: _ =>
      if isCont b1 then some (Char.ofNat ((b - 192) * 64 + (b1 - 128)), 1)
      else none
    | [] => none
  else if b < 240 then
    match bs with
    | b1 :: b2 :: _ =>
      if isCont b1 && isCont b2 then
        let n := (b - 224) * 4096 + (b1 - 128) * 64 + (b2 - 128)
        if 2048 ≤ n && (n < 55296 || 57344 ≤ n) then some (Char.ofNat n, 2)
        else none
      else none
    | _ => none
  else if b < 245 then
    match bs with
    | b1 :: b2 :: b3 :: _ =>
      if isCont b1 && isCont b2 && isCont b3 then
        let n := (b - 240) * 262144 + (b1 - 128) * 4096 + (b2 - 128) * 64 + (b3 - 128)
        if 65536 ≤ n && n < 1114112 then some (Char.ofNat n, 3)
        else none
      else none
    | _ => none
  else none

/-- UTF-8 decoding of a byte list (the semantics of `std::str::from_utf8`):
decode scalar values one after the other, `none` as soon as one is
ill-formed. -/
def utf8Decode : List Nat → Option (List Char)
  | [] => some []
  | b :: bs =>
    match decodeElem b bs with
    | some (c, k) => (utf8Decode (bs.drop k)).map fun s => c :: s
    | none => none
termination_by l => l.length
decreasing_by
  simp only [List.length_cons, List.length_drop]
  omega

/-- UTF-8 encoding of one character (scalar value), the inverse used to build
concrete byte buffers. -/
def utf8EncodeChar (c : Char) : List Nat :=
  if c.toNat < 128 then [c.toNat]
  else if c.toNat < 2048 then [192 + c.toNat / 64, 128 + c.toNat % 64]
  else if c.toNat < 65536 then
    [224 + c.toNat / 4096, 128 + c.toNat / 64 % 64, 128 + c.toNat % 64]
  else
    [240 + c.toNat / 262144, 128 + c.toNat / 4096 % 64, 128 + c.toNat / 64 % 64,
     128 + c.toNat % 64]

/-- UTF-8 encoding of a string. -/
def utf8Encode (s : List Char) : List Nat := s.flatMap utf8EncodeChar

/-- The parse errors of `parse_request`, one constructor per distinct error
value the source can return (the strings passed to `ok_or`, plus the UTF-8
decoding error). -/
inductive ParseError where
  | encodingError
  | failedParsingRequestLine
  | failedParsingMethod
  | failedParsingPath
  | failedParsingVersion
  | missingRequestBody
  | failedParsingHeaders
  deriving DecidableEq, Repr

/-- The spec groups the three request-line token failures (and the
unreachable empty-lines failure) under the single name `MalformedRequestLine`. -/
def ParseError.isMalformedRequestLine : ParseError → Bool
  | .failedParsingRequestLine => true
  | .failedParsingMethod => true
  | .failedParsingPath => true
  | .failedParsingVersion => true
  | _ => false

/-- `struct HTTPRequest` of the source. -/
structure HTTPRequest where
  method : List Char
  path : List Char
  version : List Char
  headers : List (List Char × List Char)
  body : List (List Char)
  deriving DecidableEq, Repr

/-- `struct HTTPResponse` of the source; `status_code: u8` is a byte value. -/
structure HTTPResponse where
  http_version : List Char
  status_code : Nat
  reason_phrase : List Char
  headers : List (List Char × List Char)
  body : List (List Char)
  deriving DecidableEq, Repr

/-- The header loop of `parse_request` (lines 56-63 of the source): take the
next line (`None` fails with "Missing request body"), stop on a line that
trims to empty, otherwise `split_once(' ')` (no space fails with "Failed
parsing headers.") and insert into the map; on the break, the remaining lines
are the body. -/
def parseHeadersLoop :
    List (List Char) → List (List Char × List Char) →
    Except ParseError (List (List Char × List Char) × List (List Char))
  | [], _ => .error .missingRequestBody
  | line :: rest, acc =>
    if isBlankLine line then .ok (acc, rest)
    else
      match splitOnceSpace line with
      | none => .error .failedParsingHeaders
      | some (name, val) => parseHeadersLoop rest (hmInsert acc name val)

/-- Lines 52-72 of the source, after the request line has been split on
ASCII whitespace: the three `next().ok_or(...)?` calls for method, path and
version (extra tokens ignored), then the header loop and the body. -/
def afterSplit : List (List Char) → List (List Char) →
    Except ParseError HTTPRequest
  | [], _ => .error .failedParsingMethod
  | [_], _ => .error .failedParsingPath
  | [_, _], _ => .error .failedParsingVersion
  | method :: path :: version :: _, rest =>
    match parseHeadersLoop rest [] with
    | .error e => .error e
    | .ok (headers, body) => .ok ⟨method, path, version, headers, body⟩

/-- Lines 47-51 of the source: `lines.next().ok_or("Failed parsing request
line")?`, then `split_ascii_whitespace` on that first line. -/
def afterLines : List (List Char) → Except ParseError HTTPRequest
  | [] => .error .failedParsingRequestLine
  | firstLine :: rest => afterSplit (splitAsciiWhitespace firstLine) rest

/-- `parse_request` of the source: decode `buf[0..1023]` as UTF-8, split into
lines, split the first line on ASCII whitespace taking the first three tokens
as method, path and version, then run the header loop; the lines after the
blank line are the body. -/
def parse_request (buf : List Nat) : Except ParseError HTTPRequest :=
  match utf8Decode (buf.take 1023) with
  | none => .error .encodingError
  | some parsed => afterLines (rustLines parsed)

/-- `HTTPResponse::serialize` of the source: `"<version> <code>"`, then
`" <phrase>"` when the phrase is non-empty, then `"\r\n"`, one
`"<name>: <value>\r\n"` per header, the body lines concatenated with no
separator, and a final `"\r\n"`. -/
def HTTPResponse.serialize (r : HTTPResponse) : List Char :=
  r.http_version ++ [' '] ++ (Nat.repr r.status_code).data ++
  (if r.reason_phrase.isEmpty then [] else ' ' :: r.reason_phrase) ++
  ['\r', '\n'] ++
  (r.headers.flatMap fun p => p.1 ++ [':', ' '] ++ p.2 ++ ['\r', '\n']) ++
  r.body.flatten ++ ['\r', '\n']

theorem char_toNat_valid (c : Char) :
    c.toNat < 55296 ∨ (57344 ≤ c.toNat ∧ c.toNat < 1114112) := by
  rcases c.valid with h | ⟨h1, h2⟩
  · exact Or.inl h
  · exact Or.inr ⟨h1, h2⟩

theorem utf8Decode_encodeChar_append (c : Char) (rest : List Nat) :
    utf8Decode (utf8EncodeChar c ++ rest) = (utf8Decode rest).map fun s => c :: s := by
  have hv := char_toNat_valid c
  by_cases h1 : c.toNat < 128
  · have he : utf8EncodeChar c = [c.toNat] := by
      unfold utf8EncodeChar
      rw [if_pos h1]
    rw [he]
    show utf8Decode (c.toNat :: rest) = _
    rw [utf8Decode]
    have hd : decodeElem c.toNat rest = some (Char.ofNat c.toNat, 0) := by
      unfold decodeElem
      rw [if_pos h1]
    rw [hd, Char.ofNat_toNat]
    simp
  · by_cases h2 : c.toNat < 2048
    · have he : utf8EncodeChar c = [192 + c.toNat / 64, 128 + c.toNat % 64] := by
        unfold utf8EncodeChar
        rw [if_neg h1, if_pos h2]
      rw [he]
      show utf8Decode ((192 + c.toNat / 64) :: (128 + c.toNat % 64) :: rest) = _
      rw [utf8Decode]
      have hd : decodeElem (192 + c.toNat / 64) ((128 + c.toNat % 64) :: rest) =
          some (Char.ofNat c.toNat, 1) := by
        unfold decodeElem
        have ha : ¬ (192 + c.toNat / 64 < 128) := by omega
        have hb : ¬ (192 + c.toNat / 64 < 194) := by omega
        have hc : 192 + c.toNat / 64 < 224 := by omega
        have hcont : isCont (128 + c.toNat % 64) = true := by
          unfold isCont
          simp only [Bool.and_eq_true, decide_eq_true_eq]
          omega
        rw [if_neg ha, if_neg hb, if_pos hc]
        simp only [hcont, if_true]
        have harith : (192 + c.toNat / 64 - 192) * 64 + (128 + c.toNat % 64 - 128) = c.toNat := by
          omega
        rw [harith, Char.ofNat_toNat]
      rw [hd, Char.ofNat_toNat]
      simp
    · by_cases h3 : c.toNat < 65536
      · have he : utf8EncodeChar c =
            [224 + c.toNat / 4096, 128 + c.toNat / 64 % 64, 128 + c.toNat % 64] := by
          unfold utf8EncodeChar
          rw [if_neg h1, if_neg h2, if_pos h3]
        rw [he]
        show utf8Decode ((224 + c.toNat / 4096) :: (128 + c.toNat / 64 % 64) ::
          (128 + c.toNat % 64) :: rest) = _
        rw [utf8Decode]
        have hd : decodeElem (224 + c.toNat / 4096)
            ((128 + c.toNat / 64 % 64) :: (128 + c.toNat % 64) :: rest) =
            some (Char.ofNat c.toNat, 2) := by
          unfold decodeElem
          have ha : ¬ (224 + c.toNat / 4096 < 128) := by omega
          have hb : ¬ (224 + c.toNat / 4096 < 194) := by omega
          have hcx : ¬ (224 + c.toNat / 4096 < 224) := by omega
          have hdx : 224 + c.toNat / 4096 < 240 := by omega
          rw [if_neg ha, if_neg hb, if_neg hcx, if_pos hdx]
          have hcont : (isCont (128 + c.toNat / 64 % 64) && isCont (128 + c.toNat % 64)) = true := by
            unfold isCont
            simp only [Bool.and_eq_true, decide_eq_true_eq]
            omega
          have harith : (224 + c.toNat / 4096 - 224) * 4096 +
              (128 + c.toNat / 64 % 64 - 128) * 64 + (128 + c.toNat % 64 - 128) = c.toNat := by
            omega
          have hrange : (decide (2048 ≤ c.toNat) &&
              (decide (c.toNat < 55296) || decide (57344 ≤ c.toNat))) = true := by
            simp only [Bool.and_eq_true, Bool.or_eq_true, decide_eq_true_eq]
            omega
          simp only [hcont, if_true, harith, hrange]
        rw [hd, Char.ofNat_toNat]
        simp
      · have h4 : c.toNat < 1114112 := by omega
        have he : utf8EncodeChar c =
            [240 + c.toNat / 262144, 128 + c.toNat / 4096 % 64,
             128 + c.toNat / 64 % 64, 128 + c.toNat % 64] := by
          unfold utf8EncodeChar
          rw [if_neg h1, if_neg h2, if_neg h3]
        rw [he]
        show utf8Decode ((240 + c.toNat / 262144) :: (128 + c.toNat / 4096 % 64) ::
          (128 + c.toNat / 64 % 64) :: (128 + c.toNat % 64) :: rest) = _
        rw [utf8Decode]
        have hd : decodeElem (240 + c.toNat / 262144)
            ((128 + c.toNat / 4096 % 64) :: (128 + c.toNat / 64 % 64) ::
             (128 + c.toNat % 64) :: rest) =
            some (Char.ofNat c.toNat, 3) := by
          unfold decodeElem
          have ha : ¬ (240 + c.toNat / 262144 < 128) := by omega
          have hb : ¬ (240 + c.toNat / 262144 < 194) := by omega
          have hcx : ¬ (240 + c.toNat / 262144 < 224) := by omega
          have hdx : ¬ (240 + c.toNat / 262144 < 240) := by omega
          have hex : 240 + c.toNat / 262144 < 245 := by omega
          rw [if_neg ha, if_neg hb, if_neg hcx, if_neg hdx, if_pos hex]
          have hcont : (isCont (128 + c.toNat / 4096 % 64) &&
              isCont (128 + c.toNat / 64 % 64) && isCont (128 + c.toNat % 64)) = true := by
            unfold isCont
            simp only [Bool.and_eq_true, decide_eq_true_eq]
            omega
          have harith : (240 + c.toNat / 262144 - 240) * 262144 +
              (128 + c.toNat / 4096 % 64 - 128) * 4096 +
              (128 + c.toNat / 64 % 64 - 128) * 64 + (128 + c.toNat % 64 - 128) = c.toNat := by
            omega
          have hrange : (decide (65536 ≤ c.toNat) && decide (c.toNat < 1114112)) = true := by
            simp only [Bool.and_eq_true, decide_eq_true_eq]
            omega
          simp only [hcont, if_true, harith, hrange]
        rw [hd, Char.ofNat_toNat]
        simp


theorem utf8Encode_cons (c : Char) (s : List Char) :
    utf8Encode (c :: s) = utf8EncodeChar c ++ utf8Encode s := by
  simp [utf8Encode]

theorem utf8Decode_encode_append (s : List Char) (rest : List Nat) :
    utf8Decode (utf8Encode s ++ rest) = (utf8Decode rest).map fun t => s ++ t := by
  induction s with
  | nil =>
    simp [utf8Encode]
  | cons c s ih =>
    rw [utf8Encode_cons, List.append_assoc, utf8Decode_encodeChar_append, ih,
      Option.map_map]
    rfl

theorem utf8Decode_nil : utf8Decode [] = some [] := by
  rw [utf8Decode]

theorem utf8Decode_encode (s : List Char) : utf8Decode (utf8Encode s) = some s := by
  have h := utf8Decode_encode_append s []
  rw [List.append_nil, utf8Decode_nil] at h
  simpa using h

theorem utf8Decode_replicate_zero (k : Nat) :
    utf8Decode (List.replicate k 0) = some (List.replicate k (Char.ofNat 0)) := by
  induction k with
  | zero => simpa using utf8Decode_nil
  | succ k ih =>
    rw [List.replicate_succ, utf8Decode]
    have hd : decodeElem 0 (List.replicate k 0) = some (Char.ofNat 0, 0) := by
      unfold decodeElem
      rw [if_pos (by omega)]
    rw [hd]
    simp [ih, List.replicate_succ]

theorem rustLines_single (c : Char) (hc : c ≠ '\n') : rustLines [c] = [[c]] := by
  rw [rustLines.eq_def]
  split
  · simp_all
  · simp_all
  · simp_all
  · rename_i c' cs' hm2 hm3 heq
    injection heq with e1 e2
    subst e1
    subst e2
    rw [rustLines.eq_def]

theorem rustLines_cons_cons (c d : Char) (cs : List Char) (hcn : c ≠ '\n')
    (hrd : c = '\r' → d ≠ '\n') :
    rustLines (c :: d :: cs) =
      match rustLines (d :: cs) with
      | [] => [[c]]
      | l :: ls => (c :: l) :: ls := by
  rw [rustLines.eq_def]
  split
  · simp_all
  · rename_i cs' heq
    injection heq with e1 e2
    injection e2 with e3 e4
    exact absurd e3 (hrd e1)
  · rename_i cs' heq
    injection heq with e1 e2
    exact absurd e1 hcn
  · rename_i c' cs' hm2 hm3 heq
    injection heq with e1 e2
    subst e1
    subst e2
    rfl


end ToyHttp

namespace ToyHttp

theorem stripCR_no_cr (l : List Char) (h : '\r' ∉ l) : stripCR l = l := by
  induction l with
  | nil => rfl
  | cons c cs ih =>
    rcases cs with _ | ⟨d, ds⟩
    · have hc : c ≠ '\r' := fun hh => h (by simp [hh])
      unfold stripCR
      rw [if_neg hc]
    · have htail : '\r' ∉ d :: ds := fun hm => h (List.mem_cons_of_mem c hm)
      show c :: stripCR (d :: ds) = c :: d :: ds
      rw [ih htail]

theorem rustLines_nl_cons (cs : List Char) : rustLines ('\n' :: cs) = [] :: rustLines cs := by
  rw [rustLines.eq_def]
  rfl

theorem rustLines_crnl_cons (cs : List Char) :
    rustLines ('\r' :: '\n' :: cs) = [] :: rustLines cs := by
  rw [rustLines.eq_def]
  rfl

theorem rustLines_append_newline (l rest : List Char) (h : '\n' ∉ l) :
    rustLines (l ++ '\n' :: rest) = stripCR l :: rustLines rest := by
  induction l with
  | nil =>
    exact rustLines_nl_cons rest
  | cons c cs ih =>
    have hc : c ≠ '\n' := fun hh => h (by simp [hh])
    have htail : '\n' ∉ cs := fun hm => h (List.mem_cons_of_mem c hm)
    have ihx := ih htail
    rcases cs with _ | ⟨d, ds⟩
    · by_cases hr : c = '\r'
      · subst hr
        exact rustLines_crnl_cons rest
      · show rustLines (c :: '\n' :: rest) = stripCR [c] :: rustLines rest
        rw [rustLines_cons_cons c '\n' rest hc (fun hcr => absurd hcr hr),
          rustLines_nl_cons]
        unfold stripCR
        rw [if_neg hr]
    · have hd : d ≠ '\n' := fun hh => htail (by simp [hh])
      show rustLines (c :: (d :: ds ++ '\n' :: rest)) = _
      rw [List.cons_append, rustLines_cons_cons c d (ds ++ '\n' :: rest) hc (fun _ => hd)]
      rw [List.cons_append] at ihx
      rw [ihx]
      rfl

theorem rustLines_no_newline (l : List Char) (h0 : l ≠ []) (h : '\n' ∉ l) :
    rustLines l = [l] := by
  induction l with
  | nil => exact absurd rfl h0
  | cons c cs ih =>
    have hc : c ≠ '\n' := fun hh => h (by simp [hh])
    have htail : '\n' ∉ cs := fun hm => h (List.mem_cons_of_mem c hm)
    rcases cs with _ | ⟨d, ds⟩
    · exact rustLines_single c hc
    · have hd : d ≠ '\n' := fun hh => htail (by simp [hh])
      rw [rustLines_cons_cons c d ds hc (fun _ => hd), ih (by simp) htail]

end ToyHttp

namespace ToyHttp

theorem takeWhile_append_stop {p : Char → Bool} (t : List Char) (d : Char)
    (rest : List Char) (ht : ∀ x ∈ t, p x = true) (hd : p d = false) :
    (t ++ d :: rest).takeWhile p = t := by
  induction t with
  | nil => simp [List.takeWhile_cons, hd]
  | cons c cs ih =>
    have hc : p c = true := ht c (by simp)
    rw [List.cons_append, List.takeWhile_cons, hc]
    simp only [if_true]
    rw [ih (fun x hx => ht x (by simp [hx]))]

theorem dropWhile_append_stop {p : Char → Bool} (t : List Char) (d : Char)
    (rest : List Char) (ht : ∀ x ∈ t, p x = true) (hd : p d = false) :
    (t ++ d :: rest).dropWhile p = d :: rest := by
  induction t with
  | nil => simp [List.dropWhile_cons, hd]
  | cons c cs ih =>
    have hc : p c = true := ht c (by simp)
    rw [List.cons_append, List.dropWhile_cons, hc]
    simp only [if_true]
    exact ih (fun x hx => ht x (by simp [hx]))

theorem takeWhile_all {p : Char → Bool} (t : List Char)
    (ht : ∀ x ∈ t, p x = true) : t.takeWhile p = t := by
  induction t with
  | nil => rfl
  | cons c cs ih =>
    rw [List.takeWhile_cons, ht c (by simp)]
    simp only [if_true]
    rw [ih (fun x hx => ht x (by simp [hx]))]

theorem dropWhile_all {p : Char → Bool} (t : List Char)
    (ht : ∀ x ∈ t, p x = true) : t.dropWhile p = [] := by
  induction t with
  | nil => rfl
  | cons c cs ih =>
    rw [List.dropWhile_cons, ht c (by simp)]
    simp only [if_true]
    exact ih (fun x hx => ht x (by simp [hx]))

theorem splitAW_nil : splitAsciiWhitespace [] = [] := by
  rw [splitAsciiWhitespace.eq_def]

theorem splitAW_ws_cons (c : Char) (cs : List Char) (hc : isAsciiWhitespace c = true) :
    splitAsciiWhitespace (c :: cs) = splitAsciiWhitespace cs := by
  rw [splitAsciiWhitespace.eq_def]
  simp [hc]

theorem splitAW_token_append (t : List Char) (d : Char) (rest : List Char)
    (h0 : t ≠ []) (ht : ∀ x ∈ t, isAsciiWhitespace x = false)
    (hd : isAsciiWhitespace d = true) :
    splitAsciiWhitespace (t ++ d :: rest) = t :: splitAsciiWhitespace rest := by
  rcases t with _ | ⟨c, cs⟩
  · exact absurd rfl h0
  · rw [List.cons_append, splitAsciiWhitespace.eq_def]
    have hc : isAsciiWhitespace c = false := ht c (by simp)
    simp only [hc, Bool.false_eq_true, dite_false]
    have hall : ∀ x ∈ c :: cs, (fun x => !isAsciiWhitespace x) x = true := by
      intro x hx
      simp [ht x hx]
    have hdf : (fun x => !isAsciiWhitespace x) d = false := by simp [hd]
    rw [show c :: (cs ++ d :: rest) = (c :: cs) ++ d :: rest from rfl]
    rw [takeWhile_append_stop (c :: cs) d rest hall hdf,
      dropWhile_append_stop (c :: cs) d rest hall hdf,
      splitAW_ws_cons d rest hd]

theorem splitAW_token_all (t : List Char) (h0 : t ≠ [])
    (ht : ∀ x ∈ t, isAsciiWhitespace x = false) :
    splitAsciiWhitespace t = [t] := by
  rcases t with _ | ⟨c, cs⟩
  · exact absurd rfl h0
  · rw [splitAsciiWhitespace.eq_def]
    have hc : isAsciiWhitespace c = false := ht c (by simp)
    simp only [hc, Bool.false_eq_true, dite_false]
    have hall : ∀ x ∈ c :: cs, (fun x => !isAsciiWhitespace x) x = true := by
      intro x hx
      simp [ht x hx]
    rw [takeWhile_all (c :: cs) hall, dropWhile_all (c :: cs) hall, splitAW_nil]

theorem splitAW_sound_aux (n : Nat) :
    ∀ l : List Char, l.length ≤ n → ∀ t ∈ splitAsciiWhitespace l, t ≠ [] := by
  induction n with
  | zero =>
    intro l hl t ht
    have hz : l = [] := List.eq_nil_of_length_eq_zero (Nat.le_zero.mp hl)
    subst hz
    rw [splitAW_nil] at ht
    simp at ht
  | succ n ih =>
    intro l hl t ht
    rcases l with _ | ⟨c, cs⟩
    · rw [splitAW_nil] at ht
      simp at ht
    · by_cases hc : isAsciiWhitespace c = true
      · rw [splitAW_ws_cons c cs hc] at ht
        exact ih cs (by simpa using Nat.le_of_succ_le_succ hl) t ht
      · rw [splitAsciiWhitespace.eq_def] at ht
        simp only [Bool.not_eq_true] at hc
        simp only [hc, Bool.false_eq_true, dite_false] at ht
        rcases List.mem_cons.mp ht with h | h
        · subst h
          simp [List.takeWhile_cons, hc]
        · have hlen : ((c :: cs).dropWhile fun x => !isAsciiWhitespace x).length ≤ n := by
            rw [List.dropWhile_cons]
            simp only [hc, Bool.not_false, if_true]
            have hle := length_dropWhile_le (fun x => !isAsciiWhitespace x) cs
            have := Nat.le_of_succ_le_succ hl
            simp only [List.length_cons] at this ⊢
            omega
          exact ih _ hlen t h

theorem splitAW_sound (l : List Char) : ∀ t ∈ splitAsciiWhitespace l, t ≠ [] :=
  splitAW_sound_aux l.length l (Nat.le_refl _)
end ToyHttp

namespace ToyHttp

theorem splitOnceSpace_no_space (l : List Char) (h : ' ' ∉ l) :
    splitOnceSpace l = none := by
  induction l with
  | nil => rfl
  | cons c cs ih =>
    have hc : c ≠ ' ' := fun hh => h (by simp [hh])
    simp only [splitOnceSpace]
    rw [if_neg hc, ih (fun hm => h (List.mem_cons_of_mem c hm))]
    rfl

theorem splitOnceSpace_append (n v : List Char) (h : ' ' ∉ n) :
    splitOnceSpace (n ++ ' ' :: v) = some (n, v) := by
  induction n with
  | nil =>
    simp only [List.nil_append, splitOnceSpace]
    rw [if_pos trivial]
  | cons c cs ih =>
    have hc : c ≠ ' ' := fun hh => h (by simp [hh])
    rw [List.cons_append]
    simp only [splitOnceSpace]
    rw [if_neg hc, ih (fun hm => h (List.mem_cons_of_mem c hm))]
    rfl

theorem all_dropWhile {p : Char → Bool} (l : List Char)
    (h : ∀ x ∈ l.dropWhile p, p x = true) : ∀ x ∈ l, p x = true := by
  induction l with
  | nil => simp
  | cons c cs ih =>
    rw [List.dropWhile_cons] at h
    by_cases hc : p c = true
    · simp only [hc, if_true] at h
      intro x hx
      rcases List.mem_cons.mp hx with hh | hh
      · subst hh
        exact hc
      · exact ih h x hh
    · simp only [hc, if_false] at h
      intro x hx
      exact h x hx

theorem rustTrim_eq_nil_iff (l : List Char) :
    rustTrim l = [] ↔ ∀ c ∈ l, isUnicodeWhitespace c = true := by
  unfold rustTrim
  rw [List.reverse_eq_nil_iff, List.dropWhile_eq_nil_iff]
  constructor
  · intro h
    apply all_dropWhile l
    intro x hx
    exact h x (List.mem_reverse.mpr hx)
  · intro h x hx
    exact h x (((List.dropWhile_sublist _).mem) (List.mem_reverse.mp hx))

theorem isBlankLine_eq_true_iff (l : List Char) :
    isBlankLine l = true ↔ ∀ c ∈ l, isUnicodeWhitespace c = true := by
  unfold isBlankLine
  rw [decide_eq_true_iff, List.length_eq_zero, rustTrim_eq_nil_iff]

theorem isBlankLine_false_of_mem (l : List Char) (c : Char) (hc : c ∈ l)
    (hw : isUnicodeWhitespace c = false) : isBlankLine l = false := by
  rcases hb : isBlankLine l with _ | _
  · rfl
  · have := (isBlankLine_eq_true_iff l).mp hb c hc
    rw [this] at hw
    cases hw

end ToyHttp

namespace ToyHttp

theorem hmGet_insert_same (m : List (List Char × List Char)) (k v : List Char) :
    hmGet (hmInsert m k v) k = some v := by
  induction m with
  | nil =>
    simp [hmInsert, hmGet]
  | cons p rest ih =>
    rcases p with ⟨k1, v1⟩
    by_cases hk : k1 = k
    · simp [hmInsert, hk, hmGet]
    · simp only [hmInsert, hk, if_false]
      simp [hmGet, hk, ih]

theorem hmGet_insert_other (m : List (List Char × List Char)) (k v k2 : List Char)
    (hne : k2 ≠ k) : hmGet (hmInsert m k v) k2 = hmGet m k2 := by
  induction m with
  | nil =>
    simp only [hmInsert, hmGet]
    rw [if_neg (fun h => hne h.symm)]
  | cons p rest ih =>
    rcases p with ⟨k1, v1⟩
    by_cases hk : k1 = k
    · subst hk
      simp only [hmInsert, if_pos rfl]
      simp only [hmGet]
      rw [if_neg (fun h => hne h.symm), if_neg (fun h => hne h.symm)]
    · simp only [hmInsert, hk, if_false]
      simp only [hmGet]
      by_cases hk2 : k1 = k2
      · rw [if_pos hk2, if_pos hk2]
      · rw [if_neg hk2, if_neg hk2, ih]

theorem parseHeadersLoop_nil (acc : List (List Char × List Char)) :
    parseHeadersLoop [] acc = .error .missingRequestBody := rfl

theorem parseHeadersLoop_blank (line : List Char) (rest : List (List Char))
    (acc : List (List Char × List Char)) (h : isBlankLine line = true) :
    parseHeadersLoop (line :: rest) acc = .ok (acc, rest) := by
  simp only [parseHeadersLoop]
  rw [if_pos h]

theorem parseHeadersLoop_no_space (line : List Char) (rest : List (List Char))
    (acc : List (List Char × List Char)) (h : isBlankLine line = false)
    (hs : splitOnceSpace line = none) :
    parseHeadersLoop (line :: rest) acc = .error .failedParsingHeaders := by
  simp only [parseHeadersLoop]
  rw [if_neg (by simp [h]), hs]

theorem parseHeadersLoop_insert (line : List Char) (rest : List (List Char))
    (acc : List (List Char × List Char)) (n v : List Char)
    (h : isBlankLine line = false) (hs : splitOnceSpace line = some (n, v)) :
    parseHeadersLoop (line :: rest) acc = parseHeadersLoop rest (hmInsert acc n v) := by
  simp only [parseHeadersLoop]
  rw [if_neg (by simp [h]), hs]

theorem parseHeadersLoop_all_headers (lines : List (List Char)) :
    ∀ acc, (∀ l ∈ lines, isBlankLine l = false ∧ ∃ p, splitOnceSpace l = some p) →
    parseHeadersLoop lines acc = .error .missingRequestBody := by
  induction lines with
  | nil =>
    intro acc _
    rfl
  | cons line rest ih =>
    intro acc h
    obtain ⟨hb, ⟨⟨n, v⟩, hs⟩⟩ := h line (by simp)
    rw [parseHeadersLoop_insert line rest acc n v hb hs]
    exact ih _ (fun l hl => h l (List.mem_cons_of_mem _ hl))

end ToyHttp

namespace ToyHttp

/-- The input boundary of the spec: the acceptor's fixed 1024-byte buffer,
holding the request text and zero padding for the rest. -/
def requestBuffer (s : List Char) : List Nat :=
  utf8Encode s ++ List.replicate (1024 - (utf8Encode s).length) 0

theorem requestBuffer_length (s : List Char)
    (h : (utf8Encode s).length ≤ 1024) : (requestBuffer s).length = 1024 := by
  unfold requestBuffer
  rw [List.length_append, List.length_replicate]
  omega

theorem requestBuffer_take (s : List Char) (h : (utf8Encode s).length ≤ 1023) :
    (requestBuffer s).take 1023 =
      utf8Encode s ++ List.replicate (1023 - (utf8Encode s).length) 0 := by
  unfold requestBuffer
  rw [List.take_append_eq_append_take, List.take_of_length_le h, List.take_replicate]
  congr 1
  congr 1
  omega

theorem decode_requestBuffer (s : List Char) (h : (utf8Encode s).length ≤ 1023) :
    utf8Decode ((requestBuffer s).take 1023) =
      some (s ++ List.replicate (1023 - (utf8Encode s).length) (Char.ofNat 0)) := by
  rw [requestBuffer_take s h, utf8Decode_encode_append, utf8Decode_replicate_zero]
  rfl

theorem rustLines_replicate_zero (k : Nat) (hk : k ≠ 0) :
    rustLines (List.replicate k (Char.ofNat 0)) = [List.replicate k (Char.ofNat 0)] := by
  apply rustLines_no_newline
  · simp [hk]
  · intro hm
    have := List.eq_of_mem_replicate hm
    cases this

theorem isBlankLine_replicate_zero (k : Nat) (hk : k ≠ 0) :
    isBlankLine (List.replicate k (Char.ofNat 0)) = false := by
  apply isBlankLine_false_of_mem _ (Char.ofNat 0)
  · exact List.mem_replicate.mpr ⟨hk, rfl⟩
  · decide

theorem parse_request_decoded (buf : List Nat) (s : List Char)
    (hdec : utf8Decode (buf.take 1023) = some s) :
    parse_request buf = afterLines (rustLines s) := by
  unfold parse_request
  rw [hdec]

theorem afterSplit_tokens (m p v : List Char) (ts rest : List (List Char)) :
    afterSplit (m :: p :: v :: ts) rest =
      match parseHeadersLoop rest [] with
      | .error e => .error e
      | .ok (headers, body) => .ok ⟨m, p, v, headers, body⟩ := rfl

theorem parse_request_ok (buf : List Nat) (s firstLine m p v : List Char)
    (ts : List (List Char)) (rest body : List (List Char))
    (hdrs : List (List Char × List Char))
    (hdec : utf8Decode (buf.take 1023) = some s)
    (hlines : rustLines s = firstLine :: rest)
    (hsplit : splitAsciiWhitespace firstLine = m :: p :: v :: ts)
    (hloop : parseHeadersLoop rest [] = .ok (hdrs, body)) :
    parse_request buf = .ok ⟨m, p, v, hdrs, body⟩ := by
  rw [parse_request_decoded buf s hdec, hlines]
  show afterSplit (splitAsciiWhitespace firstLine) rest = _
  rw [hsplit, afterSplit_tokens, hloop]

theorem parse_request_loop_err (buf : List Nat) (s firstLine m p v : List Char)
    (ts : List (List Char)) (rest : List (List Char)) (e : ParseError)
    (hdec : utf8Decode (buf.take 1023) = some s)
    (hlines : rustLines s = firstLine :: rest)
    (hsplit : splitAsciiWhitespace firstLine = m :: p :: v :: ts)
    (hloop : parseHeadersLoop rest [] = .error e) :
    parse_request buf = .error e := by
  rw [parse_request_decoded buf s hdec, hlines]
  show afterSplit (splitAsciiWhitespace firstLine) rest = _
  rw [hsplit, afterSplit_tokens, hloop]

theorem parse_request_token_err (buf : List Nat) (s firstLine : List Char)
    (rest : List (List Char))
    (hdec : utf8Decode (buf.take 1023) = some s)
    (hlines : rustLines s = firstLine :: rest)
    (hsplit : (splitAsciiWhitespace firstLine).length < 3) :
    ∃ e : ParseError, parse_request buf = .error e ∧
      e.isMalformedRequestLine = true := by
  rw [parse_request_decoded buf s hdec, hlines]
  show ∃ e, afterSplit (splitAsciiWhitespace firstLine) rest = .error e ∧ _
  rcases hs : splitAsciiWhitespace firstLine with _ | ⟨a, _ | ⟨b, _ | ⟨cc, ts⟩⟩⟩
  · exact ⟨.failedParsingMethod, rfl, rfl⟩
  · exact ⟨.failedParsingPath, rfl, rfl⟩
  · exact ⟨.failedParsingVersion, rfl, rfl⟩
  · rw [hs] at hsplit
    simp at hsplit
    omega

end ToyHttp

namespace ToyHttp

theorem stripCR_append_cr (l : List Char) : stripCR (l ++ ['\r']) = l := by
  induction l with
  | nil => rfl
  | cons c cs ih =>
    rcases cs with _ | ⟨d, ds⟩
    · rfl
    · show c :: stripCR ((d :: ds) ++ ['\r']) = c :: d :: ds
      rw [ih]

/-- Join lines with CRLF terminators, the shape of the request texts used in
the concrete examples. -/
def joinCRLF : List (List Char) → List Char
  | [] => []
  | l :: ls => l ++ '\r' :: '\n' :: joinCRLF ls

theorem rustLines_joinCRLF (ls : List (List Char))
    (h : ∀ l ∈ ls, '\n' ∉ l ∧ '\r' ∉ l) (rest : List Char) :
    rustLines (joinCRLF ls ++ rest) = ls ++ rustLines rest := by
  induction ls with
  | nil => rfl
  | cons l ls ih =>
    obtain ⟨hn, hr⟩ := h l (by simp)
    have hshape : joinCRLF (l :: ls) ++ rest =
        (l ++ ['\r']) ++ '\n' :: (joinCRLF ls ++ rest) := by
      show (l ++ '\r' :: '\n' :: joinCRLF ls) ++ rest = _
      simp
    rw [hshape, rustLines_append_newline _ _ (by
      intro hm
      rcases List.mem_append.mp hm with hm | hm
      · exact hn hm
      · simp at hm)]
    rw [stripCR_append_cr, ih (fun x hx => h x (List.mem_cons_of_mem _ hx))]
    rfl

theorem splitAW_three_tokens (M P V : List Char)
    (hM : M ≠ []) (hP : P ≠ []) (hV : V ≠ [])
    (hMw : ∀ c ∈ M, isAsciiWhitespace c = false)
    (hPw : ∀ c ∈ P, isAsciiWhitespace c = false)
    (hVw : ∀ c ∈ V, isAsciiWhitespace c = false) :
    splitAsciiWhitespace (M ++ ' ' :: (P ++ ' ' :: V)) = [M, P, V] := by
  rw [splitAW_token_append M ' ' (P ++ ' ' :: V) hM hMw (by decide),
    splitAW_token_append P ' ' V hP hPw (by decide),
    splitAW_token_all V hV hVw]

end ToyHttp

namespace ToyHttp

/-- Modelled from the spec's description of duplicate headers: among the
header-section lines (the lines before the blank terminator), the value of
the last line whose name part (the text before the first space) is `k`. -/
def specLastHeaderValue : List (List Char) → List Char → Option (List Char)
  | [], _ => none
  | line :: rest, k =>
    if isBlankLine line then none
    else
      match specLastHeaderValue rest k with
      | some v => some v
      | none =>
        match splitOnceSpace line with
        | some (n, v) => if n = k then some v else none
        | none => none

theorem parseHeadersLoop_get_of_specLast_none (lines : List (List Char)) :
    ∀ acc hdrs body k, specLastHeaderValue lines k = none →
      parseHeadersLoop lines acc = .ok (hdrs, body) →
      hmGet hdrs k = hmGet acc k := by
  induction lines with
  | nil =>
    intro acc hdrs body k _ hloop
    rw [parseHeadersLoop_nil] at hloop
    cases hloop
  | cons line rest ih =>
    intro acc hdrs body k hspec hloop
    by_cases hb : isBlankLine line = true
    · rw [parseHeadersLoop_blank line rest acc hb] at hloop
      injection hloop with he
      injection he with h1 h2
      rw [← h1]
    · have hbf : isBlankLine line = false := by
        rcases h : isBlankLine line with _ | _
        · rfl
        · exact absurd h hb
      unfold specLastHeaderValue at hspec
      rw [if_neg (by simp [hbf])] at hspec
      rcases hsr : specLastHeaderValue rest k with _ | v
      · rw [hsr] at hspec
        rcases hso : splitOnceSpace line with _ | ⟨n, v⟩
        · rw [parseHeadersLoop_no_space line rest acc hbf hso] at hloop
          cases hloop
        · rw [hso] at hspec
          have hnk : n ≠ k := by
            intro he
            subst he
            simp at hspec
          rw [parseHeadersLoop_insert line rest acc n v hbf hso] at hloop
          rw [ih _ hdrs body k hsr hloop, hmGet_insert_other acc n v k
            (fun he => hnk he.symm)]
      · rw [hsr] at hspec
        cases hspec

theorem parseHeadersLoop_get_of_specLast (lines : List (List Char)) :
    ∀ acc hdrs body k v, specLastHeaderValue lines k = some v →
      parseHeadersLoop lines acc = .ok (hdrs, body) →
      hmGet hdrs k = some v := by
  induction lines with
  | nil =>
    intro acc hdrs body k v hspec _
    cases hspec
  | cons line rest ih =>
    intro acc hdrs body k v hspec hloop
    by_cases hb : isBlankLine line = true
    · unfold specLastHeaderValue at hspec
      rw [if_pos (by simp [hb])] at hspec
      cases hspec
    · have hbf : isBlankLine line = false := by
        rcases h : isBlankLine line with _ | _
        · rfl
        · exact absurd h hb
      unfold specLastHeaderValue at hspec
      rw [if_neg (by simp [hbf])] at hspec
      rcases hso : splitOnceSpace line with _ | ⟨n, v1⟩
      · rw [parseHeadersLoop_no_space line rest acc hbf hso] at hloop
        cases hloop
      · rw [parseHeadersLoop_insert line rest acc n v1 hbf hso] at hloop
        rcases hsr : specLastHeaderValue rest k with _ | v2
        · rw [hsr, hso] at hspec
          by_cases hnk : n = k
          · subst hnk
            simp at hspec
            rw [parseHeadersLoop_get_of_specLast_none rest _ hdrs body n hsr hloop,
              hmGet_insert_same, hspec]
          · simp [hnk] at hspec
        · rw [hsr] at hspec
          injection hspec with he
          subst he
          exact ih _ hdrs body k v2 hsr hloop

end ToyHttp

namespace ToyHttp

/-- The request text `"<M> <P> <V>\r\n\r\n"` of the spec's first testable
property. -/
def requestLineOnly (M P V : List Char) : List Char :=
  M ++ ' ' :: (P ++ ' ' :: (V ++ ['\r', '\n', '\r', '\n']))

theorem utf8Encode_append (a b : List Char) :
    utf8Encode (a ++ b) = utf8Encode a ++ utf8Encode b := by
  unfold utf8Encode
  rw [List.flatMap_append]

theorem parse_requestLineOnly (M P V : List Char)
    (hM : M ≠ []) (hP : P ≠ []) (hV : V ≠ [])
    (hMw : ∀ c ∈ M, isAsciiWhitespace c = false)
    (hPw : ∀ c ∈ P, isAsciiWhitespace c = false)
    (hVw : ∀ c ∈ V, isAsciiWhitespace c = false)
    (hlen : (utf8Encode (requestLineOnly M P V)).length ≤ 1024) :
    parse_request (requestBuffer (requestLineOnly M P V)) =
      .ok ⟨M, P, V, [],
        if 1023 ≤ (utf8Encode (requestLineOnly M P V)).length then []
        else [List.replicate (1023 - (utf8Encode (requestLineOnly M P V)).length)
          (Char.ofNat 0)]⟩ := by
  have hfl : ∀ c ∈ M ++ ' ' :: (P ++ ' ' :: V), c ≠ '\n' ∧ c ≠ '\r' := by
    intro c hc
    have hw : isAsciiWhitespace c = false ∨ c = ' ' := by
      rcases List.mem_append.mp hc with h | h
      · exact Or.inl (hMw c h)
      · rcases List.mem_cons.mp h with h | h
        · exact Or.inr h
        · rcases List.mem_append.mp h with h | h
          · exact Or.inl (hPw c h)
          · rcases List.mem_cons.mp h with h | h
            · exact Or.inr h
            · exact Or.inl (hVw c h)
    rcases hw with h | h
    · constructor
      · intro he
        subst he
        cases h
      · intro he
        subst he
        cases h
    · subst h
      constructor
      · decide
      · decide
  have hflnl : '\n' ∉ M ++ ' ' :: (P ++ ' ' :: V) := fun hm => (hfl '\n' hm).1 rfl
  have hflcr : '\r' ∉ M ++ ' ' :: (P ++ ' ' :: V) := fun hm => (hfl '\r' hm).2 rfl
  have hsplit := splitAW_three_tokens M P V hM hP hV hMw hPw hVw
  by_cases hle : (utf8Encode (requestLineOnly M P V)).length ≤ 1023
  · have hdec := decode_requestBuffer (requestLineOnly M P V) hle
    have hshape : requestLineOnly M P V =
        joinCRLF [M ++ ' ' :: (P ++ ' ' :: V), []] := by
      unfold requestLineOnly joinCRLF
      simp
      rfl
    have hmem : ∀ l ∈ [M ++ ' ' :: (P ++ ' ' :: V), ([] : List Char)],
        '\n' ∉ l ∧ '\r' ∉ l := by
      intro l hl
      rcases List.mem_cons.mp hl with h | h
      · subst h
        exact ⟨hflnl, hflcr⟩
      · simp at h
        subst h
        simp
    rw [parse_request_decoded _ _ hdec]
    have harg : requestLineOnly M P V ++
        List.replicate (1023 - (utf8Encode (requestLineOnly M P V)).length) (Char.ofNat 0) =
        joinCRLF [M ++ ' ' :: (P ++ ' ' :: V), []] ++
        List.replicate (1023 - (utf8Encode (requestLineOnly M P V)).length) (Char.ofNat 0) := by
      rw [← hshape]
    rw [harg, rustLines_joinCRLF _ hmem]
    by_cases hk : (utf8Encode (requestLineOnly M P V)).length = 1023
    · rw [hk]
      show afterLines ([M ++ ' ' :: (P ++ ' ' :: V), []] ++ rustLines []) = _
      rw [show rustLines [] = [] from rfl, List.append_nil]
      show afterSplit (splitAsciiWhitespace (M ++ ' ' :: (P ++ ' ' :: V))) [[]] = _
      rw [hsplit, afterSplit_tokens,
        parseHeadersLoop_blank [] [] [] (by decide)]
      rw [if_pos (by omega)]
    · have hkk : 1023 - (utf8Encode (requestLineOnly M P V)).length ≠ 0 := by omega
      rw [rustLines_replicate_zero _ hkk]
      show afterSplit (splitAsciiWhitespace (M ++ ' ' :: (P ++ ' ' :: V)))
        [[], List.replicate (1023 - (utf8Encode (requestLineOnly M P V)).length) (Char.ofNat 0)] = _
      rw [hsplit, afterSplit_tokens,
        parseHeadersLoop_blank [] _ [] (by decide)]
      rw [if_neg (by omega)]
  · have h1024 : (utf8Encode (requestLineOnly M P V)).length = 1024 := by omega
    have hsplit4 : requestLineOnly M P V =
        (M ++ ' ' :: (P ++ ' ' :: V) ++ ['\r', '\n', '\r']) ++ ['\n'] := by
      unfold requestLineOnly
      simp
    have henc : utf8Encode (requestLineOnly M P V) =
        utf8Encode (M ++ ' ' :: (P ++ ' ' :: V) ++ ['\r', '\n', '\r']) ++ [10] := by
      rw [hsplit4, utf8Encode_append]
      rfl
    have hplen : (utf8Encode (M ++ ' ' :: (P ++ ' ' :: V) ++ ['\r', '\n', '\r'])).length = 1023 := by
      rw [henc, List.length_append] at h1024
      simpa using h1024
    have htake : (requestBuffer (requestLineOnly M P V)).take 1023 =
        utf8Encode (M ++ ' ' :: (P ++ ' ' :: V) ++ ['\r', '\n', '\r']) := by
      unfold requestBuffer
      rw [h1024]
      rw [show (1024 : Nat) - 1024 = 0 from rfl, List.replicate_zero, List.append_nil]
      rw [henc, List.take_append_eq_append_take, List.take_of_length_le (by omega),
        hplen]
      simp
    have hdec : utf8Decode ((requestBuffer (requestLineOnly M P V)).take 1023) =
        some (M ++ ' ' :: (P ++ ' ' :: V) ++ ['\r', '\n', '\r']) := by
      rw [htake, utf8Decode_encode]
    rw [parse_request_decoded _ _ hdec]
    have harg2 : M ++ ' ' :: (P ++ ' ' :: V) ++ ['\r', '\n', '\r'] =
        (M ++ ' ' :: (P ++ ' ' :: V) ++ ['\r']) ++ '\n' :: ['\r'] := by
      simp
    rw [harg2, rustLines_append_newline _ _ (by
      intro hm
      rcases List.mem_append.mp hm with hm | hm
      · exact hflnl hm
      · simp at hm)]
    rw [stripCR_append_cr, rustLines_single '\r' (by decide)]
    show afterSplit (splitAsciiWhitespace (M ++ ' ' :: (P ++ ' ' :: V))) [['\r']] = _
    rw [hsplit, afterSplit_tokens,
      parseHeadersLoop_blank ['\r'] [] [] (by decide)]
    rw [if_pos (by omega)]

end ToyHttp

namespace ToyHttp

theorem parse_concrete (s : List Char) (ls : List (List Char)) (k : Nat)
    (hs : s = joinCRLF ls) (hmem : ∀ l ∈ ls, '\n' ∉ l ∧ '\r' ∉ l)
    (hlen : (utf8Encode s).length ≤ 1023)
    (hk : 1023 - (utf8Encode s).length = k) (hk0 : k ≠ 0) :
    parse_request (requestBuffer s) =
      afterLines (ls ++ [List.replicate k (Char.ofNat 0)]) := by
  have hdec := decode_requestBuffer s hlen
  rw [hk] at hdec
  rw [parse_request_decoded _ _ hdec, hs, rustLines_joinCRLF _ hmem,
    rustLines_replicate_zero k hk0]

/-- C1: for a 1024-byte buffer holding `"<M> <P> <V>\r\n\r\n"` (M, P, V
non-empty, free of ASCII whitespace) and zero padding, `parse_request`
succeeds with `method = M`, `path = P`, `version = V` and empty headers, and
the body is empty only when the request text reaches the decoded range of
1023 bytes; otherwise the body is the single line made of the zero padding
(the NUL characters decoded from the unused part of the buffer). -/
theorem C1_request_line_parse (M P V : List Char)
    (hM : M ≠ []) (hP : P ≠ []) (hV : V ≠ [])
    (hMw : ∀ c ∈ M, isAsciiWhitespace c = false)
    (hPw : ∀ c ∈ P, isAsciiWhitespace c = false)
    (hVw : ∀ c ∈ V, isAsciiWhitespace c = false)
    (hlen : (utf8Encode (requestLineOnly M P V)).length ≤ 1024) :
    parse_request (requestBuffer (requestLineOnly M P V)) =
      .ok ⟨M, P, V, [],
        if 1023 ≤ (utf8Encode (requestLineOnly M P V)).length then []
        else [List.replicate (1023 - (utf8Encode (requestLineOnly M P V)).length)
          (Char.ofNat 0)]⟩ :=
  parse_requestLineOnly M P V hM hP hV hMw hPw hVw hlen

/-- Witness for C1: the concrete request `"GET / HTTP/1.1\r\n\r\n"`. -/
theorem C1_request_line_parse_witness :
    parse_request (requestBuffer (requestLineOnly "GET".data "/".data "HTTP/1.1".data)) =
      .ok ⟨"GET".data, "/".data, "HTTP/1.1".data, [],
        if 1023 ≤ (utf8Encode (requestLineOnly "GET".data "/".data "HTTP/1.1".data)).length
        then []
        else [List.replicate
          (1023 - (utf8Encode (requestLineOnly "GET".data "/".data "HTTP/1.1".data)).length)
          (Char.ofNat 0)]⟩ :=
  C1_request_line_parse "GET".data "/".data "HTTP/1.1".data (by decide) (by decide)
    (by decide) (by decide) (by decide) (by decide) (by decide)

/-- Counterexample to C1 as stated: on the zero-padded buffer for
`"GET / HTTP/1.1\r\n\r\n"` the parse succeeds but the body is the single
line of 1005 NUL characters decoded from the padding, not the empty
sequence. -/
theorem C1_counterexample :
    parse_request (requestBuffer (requestLineOnly "GET".data "/".data "HTTP/1.1".data)) =
      .ok ⟨"GET".data, "/".data, "HTTP/1.1".data, [],
        [List.replicate 1005 (Char.ofNat 0)]⟩ ∧
    [List.replicate 1005 (Char.ofNat 0)] ≠ ([] : List (List Char)) := by
  constructor
  · rw [parse_requestLineOnly "GET".data "/".data "HTTP/1.1".data (by decide) (by decide)
      (by decide) (by decide) (by decide) (by decide) (by decide)]
    have hlen :
        (utf8Encode (requestLineOnly "GET".data "/".data "HTTP/1.1".data)).length = 18 := by
      decide
    rw [hlen]
    norm_num
  · exact List.cons_ne_nil _ _

/-- C3: the final byte of the 1024-byte buffer never affects the parse:
buffers agreeing on indices 0 through 1022 parse identically. -/
theorem C3_final_byte_irrelevant (b1 b2 : List Nat) (h1 : b1.length = 1024)
    (h2 : b2.length = 1024) (hpre : b1.take 1023 = b2.take 1023) :
    parse_request b1 = parse_request b2 := by
  unfold parse_request
  rw [hpre]

/-- Witness for C3: an all-zero buffer and the same buffer with last byte 7. -/
theorem C3_final_byte_irrelevant_witness :
    parse_request (List.replicate 1024 0) =
      parse_request (List.replicate 1023 0 ++ [7]) :=
  C3_final_byte_irrelevant _ _ (List.length_replicate 1024 0)
    (by
      rw [List.length_append, List.length_replicate]
      rfl)
    (by
      rw [List.take_replicate, List.take_append_eq_append_take,
        List.take_of_length_le (le_of_eq (List.length_replicate 1023 0)),
        List.length_replicate]
      norm_num)

/-- C7: serializing the 200 OK response with a `Content-Length: 0` header
and empty body starts with the status line, contains the header line, and
ends with CRLF; and the final CRLF is emitted for every response. -/
theorem C7_serialize_ok :
    (∃ t, HTTPResponse.serialize
        ⟨"HTTP/1.1".data, 200, "OK".data, [("Content-Length".data, "0".data)], []⟩ =
      "HTTP/1.1 200 OK\r\n".data ++ t) ∧
    (∃ a b, HTTPResponse.serialize
        ⟨"HTTP/1.1".data, 200, "OK".data, [("Content-Length".data, "0".data)], []⟩ =
      a ++ "Content-Length: 0\r\n".data ++ b) ∧
    (∃ a, HTTPResponse.serialize
        ⟨"HTTP/1.1".data, 200, "OK".data, [("Content-Length".data, "0".data)], []⟩ =
      a ++ "\r\n".data) ∧
    (∀ r : HTTPResponse, ∃ a, HTTPResponse.serialize r = a ++ "\r\n".data) := by
  refine ⟨⟨"Content-Length: 0\r\n\r\n".data, by decide⟩,
    ⟨"HTTP/1.1 200 OK\r\n".data, "\r\n".data, by decide⟩,
    ⟨"HTTP/1.1 200 OK\r\nContent-Length: 0\r\n".data, by decide⟩, ?_⟩
  intro r
  refine ⟨r.http_version ++ [' '] ++ (Nat.repr r.status_code).data ++
    (if r.reason_phrase.isEmpty then [] else ' ' :: r.reason_phrase) ++ ['\r', '\n'] ++
    (r.headers.flatMap fun p => p.1 ++ [':', ' '] ++ p.2 ++ ['\r', '\n']) ++
    r.body.flatten, ?_⟩
  show HTTPResponse.serialize r = _
  unfold HTTPResponse.serialize
  simp [List.append_assoc]

/-- C8: with an empty reason phrase the status line is exactly
`"<version> <code>\r\n"` (no trailing space), and with a non-empty phrase it
is `"<version> <code> <phrase>\r\n"`, followed in both cases by the header
lines, the body and the final CRLF. -/
theorem C8_reason_phrase (r : HTTPResponse) :
    (r.reason_phrase = [] →
      HTTPResponse.serialize r =
        (r.http_version ++ ' ' :: (Nat.repr r.status_code).data ++ ['\r', '\n']) ++
        (r.headers.flatMap fun p => p.1 ++ [':', ' '] ++ p.2 ++ ['\r', '\n']) ++
        r.body.flatten ++ ['\r', '\n']) ∧
    (r.reason_phrase ≠ [] →
      HTTPResponse.serialize r =
        (r.http_version ++ ' ' :: (Nat.repr r.status_code).data ++
          ' ' :: r.reason_phrase ++ ['\r', '\n']) ++
        (r.headers.flatMap fun p => p.1 ++ [':', ' '] ++ p.2 ++ ['\r', '\n']) ++
        r.body.flatten ++ ['\r', '\n']) := by
  constructor
  · intro h
    unfold HTTPResponse.serialize
    rw [h]
    simp [List.append_assoc]
  · intro h
    unfold HTTPResponse.serialize
    rw [if_neg (by simp [h])]
    simp [List.append_assoc]

/-- Witness for C8: a phrase-less 204 response and the 200 OK response. -/
theorem C8_reason_phrase_witness :
    HTTPResponse.serialize ⟨"HTTP/1.1".data, 204, [], [], []⟩ =
      ("HTTP/1.1".data ++ ' ' :: (Nat.repr 204).data ++ ['\r', '\n']) ++
      (([] : List (List Char × List Char)).flatMap
        fun p => p.1 ++ [':', ' '] ++ p.2 ++ ['\r', '\n']) ++
      ([] : List (List Char)).flatten ++ ['\r', '\n'] ∧
    HTTPResponse.serialize ⟨"HTTP/1.1".data, 200, "OK".data, [], []⟩ =
      ("HTTP/1.1".data ++ ' ' :: (Nat.repr 200).data ++
        ' ' :: "OK".data ++ ['\r', '\n']) ++
      (([] : List (List Char × List Char)).flatMap
        fun p => p.1 ++ [':', ' '] ++ p.2 ++ ['\r', '\n']) ++
      ([] : List (List Char)).flatten ++ ['\r', '\n'] :=
  ⟨(C8_reason_phrase ⟨"HTTP/1.1".data, 204, [], [], []⟩).1 rfl,
   (C8_reason_phrase ⟨"HTTP/1.1".data, 200, "OK".data, [], []⟩).2 (by decide)⟩

end ToyHttp

namespace ToyHttp

/-- C4: when the first decoded line splits into fewer than 3
ASCII-whitespace-separated tokens, `parse_request` fails with one of the
request-line errors (the spec's `MalformedRequestLine`), which is none of
the header-section errors: header parsing never begins. -/
theorem C4_malformed_request_line (buf : List Nat) (s firstLine : List Char)
    (rest : List (List Char))
    (hdec : utf8Decode (buf.take 1023) = some s)
    (hlines : rustLines s = firstLine :: rest)
    (hcount : (splitAsciiWhitespace firstLine).length < 3) :
    ∃ e : ParseError, parse_request buf = .error e ∧
      e.isMalformedRequestLine = true ∧
      e ≠ .failedParsingHeaders ∧ e ≠ .missingRequestBody := by
  obtain ⟨e, he, hm⟩ := parse_request_token_err buf s firstLine rest hdec hlines hcount
  refine ⟨e, he, hm, ?_, ?_⟩ <;>
    cases e <;> simp_all [ParseError.isMalformedRequestLine]

/-- Witness for C4: the two-token request `"GET /\r\n\r\n"`. -/
theorem C4_malformed_request_line_witness :
    ∃ e : ParseError,
      parse_request (requestBuffer "GET /\r\n\r\n".data) = .error e ∧
      e.isMalformedRequestLine = true ∧
      e ≠ .failedParsingHeaders ∧ e ≠ .missingRequestBody := by
  have hlen : (utf8Encode "GET /\r\n\r\n".data).length ≤ 1023 := by decide
  have hdec := decode_requestBuffer "GET /\r\n\r\n".data hlen
  rw [show 1023 - (utf8Encode "GET /\r\n\r\n".data).length = 1014 from by decide] at hdec
  have hshape : "GET /\r\n\r\n".data ++ List.replicate 1014 (Char.ofNat 0) =
      joinCRLF ["GET /".data, []] ++ List.replicate 1014 (Char.ofNat 0) := by
    rfl
  rw [hshape] at hdec
  have hlines : rustLines (joinCRLF ["GET /".data, []] ++
      List.replicate 1014 (Char.ofNat 0)) =
      "GET /".data :: ([[], List.replicate 1014 (Char.ofNat 0)]) := by
    rw [rustLines_joinCRLF _ (by decide), rustLines_replicate_zero 1014 (by decide)]
    rfl
  apply C4_malformed_request_line (requestBuffer "GET /\r\n\r\n".data)
    (joinCRLF ["GET /".data, []] ++ List.replicate 1014 (Char.ofNat 0))
    "GET /".data [[], List.replicate 1014 (Char.ofNat 0)] hdec hlines
  rw [show "GET /".data = "GET".data ++ ' ' :: "/".data from rfl,
    splitAW_token_append "GET".data ' ' "/".data (by decide) (by decide) (by decide),
    splitAW_token_all "/".data (by decide) (by decide)]
  decide

/-- C6: every successfully parsed request has non-empty method, path and
version. -/
theorem C6_nonempty_fields (buf : List Nat) (r : HTTPRequest)
    (h : parse_request buf = .ok r) :
    r.method ≠ [] ∧ r.path ≠ [] ∧ r.version ≠ [] := by
  unfold parse_request at h
  rcases hdec : utf8Decode (buf.take 1023) with _ | s <;> rw [hdec] at h
  · exact Except.noConfusion h
  · have h2 : afterLines (rustLines s) = .ok r := h
    rcases hlines : rustLines s with _ | ⟨firstLine, rest⟩ <;> rw [hlines] at h2
    · exact Except.noConfusion h2
    · have h3 : afterSplit (splitAsciiWhitespace firstLine) rest = .ok r := h2
      rcases hsplit : splitAsciiWhitespace firstLine
        with _ | ⟨m, _ | ⟨p, _ | ⟨v, ts⟩⟩⟩ <;> rw [hsplit] at h3
      · exact Except.noConfusion h3
      · exact Except.noConfusion h3
      · exact Except.noConfusion h3
      · rw [afterSplit_tokens] at h3
        rcases hloop : parseHeadersLoop rest [] with e | ⟨hdrs, body⟩ <;>
          rw [hloop] at h3
        · exact Except.noConfusion h3
        · have h4 : Except.ok (HTTPRequest.mk m p v hdrs body) = Except.ok r := h3
          injection h4 with he
          subst he
          refine ⟨?_, ?_, ?_⟩
          · exact splitAW_sound firstLine m (by rw [hsplit]; simp)
          · exact splitAW_sound firstLine p (by rw [hsplit]; simp)
          · exact splitAW_sound firstLine v (by rw [hsplit]; simp)

/-- Witness for C6: the parsed request for `"GET / HTTP/1.1\r\n\r\n"`. -/
theorem C6_nonempty_fields_witness :
    "GET".data ≠ ([] : List Char) ∧ "/".data ≠ ([] : List Char) ∧
      "HTTP/1.1".data ≠ ([] : List Char) :=
  C6_nonempty_fields (requestBuffer (requestLineOnly "GET".data "/".data "HTTP/1.1".data))
    _ (parse_requestLineOnly "GET".data "/".data "HTTP/1.1".data (by decide) (by decide)
      (by decide) (by decide) (by decide) (by decide) (by decide))

end ToyHttp

namespace ToyHttp

/-- C2 (amended): a buffer whose decoded text has a request line with at
least 3 tokens, whose remaining lines are all non-blank and all contain a
space (so each parses as a header), fails with `MissingBody`: the input is
exhausted before a blank line is found. -/
theorem C2_missing_blank_line (buf : List Nat) (s firstLine : List Char)
    (rest : List (List Char))
    (hdec : utf8Decode (buf.take 1023) = some s)
    (hlines : rustLines s = firstLine :: rest)
    (htok : 3 ≤ (splitAsciiWhitespace firstLine).length)
    (hnb : ∀ l ∈ rest, isBlankLine l = false)
    (hsp : ∀ l ∈ rest, ∃ q, splitOnceSpace l = some q) :
    parse_request buf = .error .missingRequestBody := by
  rcases hsplit : splitAsciiWhitespace firstLine with _ | ⟨m, _ | ⟨p, _ | ⟨v, ts⟩⟩⟩
  · rw [hsplit] at htok
    simp at htok
  · rw [hsplit] at htok
    simp at htok
  · rw [hsplit] at htok
    simp at htok
  · exact parse_request_loop_err buf s firstLine m p v ts rest _ hdec hlines hsplit
      (parseHeadersLoop_all_headers rest [] (fun l hl => ⟨hnb l hl, hsp l hl⟩))

/-- Witness for C2 (amended): `"GET / HTTP/1.1\r\nA b"` with zero padding —
the header line `A b` parses, the padding line is non-blank, no blank line
appears, and parsing fails with `MissingBody`. -/
theorem C2_missing_blank_line_witness :
    parse_request (requestBuffer "GET / HTTP/1.1\r\nA b".data) =
      .error .missingRequestBody := by
  have hlen : (utf8Encode "GET / HTTP/1.1\r\nA b".data).length ≤ 1023 := by decide
  have hdec := decode_requestBuffer "GET / HTTP/1.1\r\nA b".data hlen
  rw [show 1023 - (utf8Encode "GET / HTTP/1.1\r\nA b".data).length = 1004 from by decide]
    at hdec
  have hshape : "GET / HTTP/1.1\r\nA b".data ++ List.replicate 1004 (Char.ofNat 0) =
      joinCRLF ["GET / HTTP/1.1".data] ++ ("A b".data ++ List.replicate 1004 (Char.ofNat 0)) := by
    rfl
  rw [hshape] at hdec
  have hnl : '\n' ∉ "A b".data ++ List.replicate 1004 (Char.ofNat 0) := by
    intro hm
    rcases List.mem_append.mp hm with hm | hm
    · revert hm
      decide
    · have := List.eq_of_mem_replicate hm
      cases this
  have hlines : rustLines (joinCRLF ["GET / HTTP/1.1".data] ++
      ("A b".data ++ List.replicate 1004 (Char.ofNat 0))) =
      "GET / HTTP/1.1".data :: ["A b".data ++ List.replicate 1004 (Char.ofNat 0)] := by
    rw [rustLines_joinCRLF _ (by decide),
      rustLines_no_newline _ (show "A b".data ++ List.replicate 1004 (Char.ofNat 0) ≠ []
        from List.cons_ne_nil 'A' _) hnl]
    rfl
  apply C2_missing_blank_line _ _ _ _ hdec hlines
  · rw [show "GET / HTTP/1.1".data =
      "GET".data ++ ' ' :: ("/".data ++ ' ' :: "HTTP/1.1".data) from rfl,
      splitAW_three_tokens "GET".data "/".data "HTTP/1.1".data (by decide) (by decide)
        (by decide) (by decide) (by decide) (by decide)]
    decide
  · intro l hl
    have he := List.mem_singleton.mp hl
    subst he
    apply isBlankLine_false_of_mem _ 'A'
    · show 'A' ∈ "A b".data ++ _
      exact List.mem_append.mpr (Or.inl (by decide))
    · decide
  · intro l hl
    have he := List.mem_singleton.mp hl
    subst he
    refine ⟨("A".data, 'b' :: List.replicate 1004 (Char.ofNat 0)), ?_⟩
    show splitOnceSpace ("A".data ++ ' ' :: ('b' :: List.replicate 1004 (Char.ofNat 0))) = _
    exact splitOnceSpace_append _ _ (by decide)

/-- Counterexample to C2 as stated: the buffer for `"GET / HTTP/1.1\r\nX"`
has a well-formed request line and no blank line anywhere in the decoded
input, yet parsing fails with the header error (`X` has no space), not with
`MissingBody`. -/
theorem C2_counterexample :
    3 ≤ (splitAsciiWhitespace "GET / HTTP/1.1".data).length ∧
    utf8Decode ((requestBuffer "GET / HTTP/1.1\r\nX".data).take 1023) =
      some ("GET / HTTP/1.1\r\nX".data ++ List.replicate 1006 (Char.ofNat 0)) ∧
    rustLines ("GET / HTTP/1.1\r\nX".data ++ List.replicate 1006 (Char.ofNat 0)) =
      ["GET / HTTP/1.1".data, 'X' :: List.replicate 1006 (Char.ofNat 0)] ∧
    (∀ l ∈ ["GET / HTTP/1.1".data, 'X' :: List.replicate 1006 (Char.ofNat 0)],
      isBlankLine l = false) ∧
    parse_request (requestBuffer "GET / HTTP/1.1\r\nX".data) =
      .error .failedParsingHeaders ∧
    ParseError.failedParsingHeaders ≠ ParseError.missingRequestBody := by
  have hsw : splitAsciiWhitespace "GET / HTTP/1.1".data =
      ["GET".data, "/".data, "HTTP/1.1".data] := by
    rw [show "GET / HTTP/1.1".data =
      "GET".data ++ ' ' :: ("/".data ++ ' ' :: "HTTP/1.1".data) from rfl,
      splitAW_three_tokens "GET".data "/".data "HTTP/1.1".data (by decide) (by decide)
        (by decide) (by decide) (by decide) (by decide)]
  have hlen : (utf8Encode "GET / HTTP/1.1\r\nX".data).length ≤ 1023 := by decide
  have hdec := decode_requestBuffer "GET / HTTP/1.1\r\nX".data hlen
  rw [show 1023 - (utf8Encode "GET / HTTP/1.1\r\nX".data).length = 1006 from by decide]
    at hdec
  have hnl : '\n' ∉ 'X' :: List.replicate 1006 (Char.ofNat 0) := by
    intro hm
    rcases List.mem_cons.mp hm with hm | hm
    · cases hm
    · have := List.eq_of_mem_replicate hm
      cases this
  have hlines : rustLines ("GET / HTTP/1.1\r\nX".data ++
      List.replicate 1006 (Char.ofNat 0)) =
      ["GET / HTTP/1.1".data, 'X' :: List.replicate 1006 (Char.ofNat 0)] := by
    rw [show "GET / HTTP/1.1\r\nX".data ++ List.replicate 1006 (Char.ofNat 0) =
      joinCRLF ["GET / HTTP/1.1".data] ++ ('X' :: List.replicate 1006 (Char.ofNat 0))
      from rfl]
    rw [rustLines_joinCRLF _ (by decide),
      rustLines_no_newline _ (List.cons_ne_nil 'X' _) hnl]
    rfl
  have hblank2 : isBlankLine ('X' :: List.replicate 1006 (Char.ofNat 0)) = false :=
    isBlankLine_false_of_mem _ 'X' (List.mem_cons_self _ _) (by decide)
  refine ⟨by rw [hsw]; decide, hdec, hlines, ?_, ?_, by decide⟩
  · intro l hl
    rcases List.mem_cons.mp hl with h | h
    · subst h
      decide
    · have he := List.mem_singleton.mp h
      subst he
      exact hblank2
  · have hnospace : ' ' ∉ 'X' :: List.replicate 1006 (Char.ofNat 0) := by
      intro hm
      rcases List.mem_cons.mp hm with hm | hm
      · cases hm
      · have := List.eq_of_mem_replicate hm
        cases this
    exact parse_request_loop_err (requestBuffer "GET / HTTP/1.1\r\nX".data)
      ("GET / HTTP/1.1\r\nX".data ++ List.replicate 1006 (Char.ofNat 0))
      "GET / HTTP/1.1".data "GET".data "/".data "HTTP/1.1".data []
      ['X' :: List.replicate 1006 (Char.ofNat 0)] ParseError.failedParsingHeaders
      hdec hlines hsw
      (parseHeadersLoop_no_space _ [] [] hblank2 (splitOnceSpace_no_space _ hnospace))

end ToyHttp

namespace ToyHttp

/-- C5: a non-blank header-section line fails exactly when it has no space:
with no space the loop fails with `MalformedHeader`; with a first space the
text before it is mapped to the text after it; and concretely the line
`"X-Test value"` before a blank line yields `headers["X-Test"] = "value"`. -/
theorem C5_header_line_space :
    (∀ (line : List Char) (rest : List (List Char))
        (acc : List (List Char × List Char)),
      isBlankLine line = false →
        (splitOnceSpace line = none →
          parseHeadersLoop (line :: rest) acc = .error .failedParsingHeaders) ∧
        (∀ n v, ' ' ∉ n → line = n ++ ' ' :: v →
          parseHeadersLoop (line :: rest) acc =
            parseHeadersLoop rest (hmInsert acc n v))) ∧
    (parse_request (requestBuffer
        "GET / HTTP/1.1\r\nX-Test value\r\n\r\n".data)).toOption.map
      (fun r => hmGet r.headers "X-Test".data) = some (some "value".data) := by
  constructor
  · intro line rest acc hb
    constructor
    · intro hs
      exact parseHeadersLoop_no_space line rest acc hb hs
    · intro n v hn hline
      exact parseHeadersLoop_insert line rest acc n v hb
        (by rw [hline]; exact splitOnceSpace_append n v hn)
  · rw [parse_concrete "GET / HTTP/1.1\r\nX-Test value\r\n\r\n".data
      ["GET / HTTP/1.1".data, "X-Test value".data, []] 991 rfl (by decide)
      (by decide) (by decide) (by decide)]
    show (afterSplit (splitAsciiWhitespace "GET / HTTP/1.1".data)
      ["X-Test value".data, [], List.replicate 991 (Char.ofNat 0)]).toOption.map
      (fun r => hmGet r.headers "X-Test".data) = some (some "value".data)
    rw [show "GET / HTTP/1.1".data =
      "GET".data ++ ' ' :: ("/".data ++ ' ' :: "HTTP/1.1".data) from rfl,
      splitAW_three_tokens "GET".data "/".data "HTTP/1.1".data (by decide) (by decide)
        (by decide) (by decide) (by decide) (by decide)]
    rfl

/-- Witness for C5: the spaceless line `"Nospace"` fails, and the line
`"X-Test value"` inserts the pair into the map. -/
theorem C5_header_line_space_witness :
    parseHeadersLoop ["Nospace".data] [] = .error .failedParsingHeaders ∧
    parseHeadersLoop ["X-Test value".data] [] =
      parseHeadersLoop [] (hmInsert [] "X-Test".data "value".data) := by
  constructor
  · exact ((C5_header_line_space.1 "Nospace".data [] []) (by decide)).1 (by decide)
  · exact ((C5_header_line_space.1 "X-Test value".data [] []) (by decide)).2
      "X-Test".data "value".data (by decide) (by decide)

/-- C9: when the successfully parsed header section has several lines with
the same name, the map holds the value of the last such line (later
duplicates overwrite earlier ones), and lookups are exact-match: the names
`a` and `A` are distinct keys. -/
theorem C9_duplicate_headers :
    (∀ (lines : List (List Char)) (hdrs : List (List Char × List Char))
        (body : List (List Char)) (k v : List Char),
      parseHeadersLoop lines [] = .ok (hdrs, body) →
      specLastHeaderValue lines k = some v →
      hmGet hdrs k = some v) ∧
    (parse_request (requestBuffer
        "GET / HTTP/1.1\r\na 1\r\na 2\r\nA 3\r\n\r\n".data)).toOption.map
      (fun r => (hmGet r.headers "a".data, hmGet r.headers "A".data)) =
      some (some "2".data, some "3".data) := by
  constructor
  · intro lines hdrs body k v hloop hspec
    exact parseHeadersLoop_get_of_specLast lines [] hdrs body k v hspec hloop
  · rw [parse_concrete "GET / HTTP/1.1\r\na 1\r\na 2\r\nA 3\r\n\r\n".data
      ["GET / HTTP/1.1".data, "a 1".data, "a 2".data, "A 3".data, []] 990 rfl
      (by decide) (by decide) (by decide) (by decide)]
    show (afterSplit (splitAsciiWhitespace "GET / HTTP/1.1".data)
      ["a 1".data, "a 2".data, "A 3".data, [],
        List.replicate 990 (Char.ofNat 0)]).toOption.map
      (fun r => (hmGet r.headers "a".data, hmGet r.headers "A".data)) =
      some (some "2".data, some "3".data)
    rw [show "GET / HTTP/1.1".data =
      "GET".data ++ ' ' :: ("/".data ++ ' ' :: "HTTP/1.1".data) from rfl,
      splitAW_three_tokens "GET".data "/".data "HTTP/1.1".data (by decide) (by decide)
        (by decide) (by decide) (by decide) (by decide)]
    rfl

/-- Witness for C9: among the lines `"a 1"`, `"a 2"` and a blank line, the
last value for the name `a` is `2`, and the parsed map agrees. -/
theorem C9_duplicate_headers_witness :
    hmGet [("a".data, "2".data)] "a".data = some "2".data :=
  C9_duplicate_headers.1 ["a 1".data, "a 2".data, []] [("a".data, "2".data)] []
    "a".data "2".data rfl rfl

/-- C10: a header-section line that begins with a space is accepted, not
rejected: it maps the empty header name to the rest of the line, so header
names need not be non-empty. -/
theorem C10_empty_header_name :
    (∀ (rest : List Char) (more : List (List Char))
        (acc : List (List Char × List Char)),
      isBlankLine rest = false →
      parseHeadersLoop ((' ' :: rest) :: more) acc =
        parseHeadersLoop more (hmInsert acc [] rest)) ∧
    (parse_request (requestBuffer
        "GET / HTTP/1.1\r\n value\r\n\r\n".data)).toOption.map
      (fun r => hmGet r.headers []) = some (some "value".data) := by
  constructor
  · intro rest more acc hb
    have hbl : isBlankLine (' ' :: rest) = false := by
      rcases h : isBlankLine (' ' :: rest) with _ | _
      · rfl
      · have hall := (isBlankLine_eq_true_iff _).mp h
        have hr : isBlankLine rest = true := (isBlankLine_eq_true_iff rest).mpr
          (fun c hc => hall c (List.mem_cons_of_mem _ hc))
        rw [hr] at hb
        cases hb
    exact parseHeadersLoop_insert _ more acc [] rest hbl
      (show splitOnceSpace ([] ++ ' ' :: rest) = _
        from splitOnceSpace_append [] rest (by simp))
  · rw [parse_concrete "GET / HTTP/1.1\r\n value\r\n\r\n".data
      ["GET / HTTP/1.1".data, " value".data, []] 997 rfl (by decide)
      (by decide) (by decide) (by decide)]
    show (afterSplit (splitAsciiWhitespace "GET / HTTP/1.1".data)
      [" value".data, [], List.replicate 997 (Char.ofNat 0)]).toOption.map
      (fun r => hmGet r.headers []) = some (some "value".data)
    rw [show "GET / HTTP/1.1".data =
      "GET".data ++ ' ' :: ("/".data ++ ' ' :: "HTTP/1.1".data) from rfl,
      splitAW_three_tokens "GET".data "/".data "HTTP/1.1".data (by decide) (by decide)
        (by decide) (by decide) (by decide) (by decide)]
    rfl

/-- Witness for C10: the line `" value"` inserts the empty name. -/
theorem C10_empty_header_name_witness :
    parseHeadersLoop [' ' :: "value".data] [] =
      parseHeadersLoop [] (hmInsert [] [] "value".data) :=
  C10_empty_header_name.1 "value".data [] [] (by decide)

end ToyHttp
